import Mathlib

/-!
# SLA archive format registry

A shallow embedding of `src/libslic3r/Format/SLAArchiveFormatRegistry.cpp`
(namespace `Slic3r`) together with theorems about it.

Modelling conventions.

* A C string (`const char *`, `std::string`) is a Lean `String`.
* `std::function` objects are `Option`s: `none` is the empty function
  (`nullptr`, default constructed), `some c` is a callable, identified by the
  class it hands to `std::make_unique`.
* A `std::set<ArchiveEntry>` is the list of its elements in iteration order.
  Its class invariant (strictly ascending by `operator<`) is the predicate
  `StdSet.Ascending`, which insertion is proved to preserve.
* The static `std::unique_ptr<Registry> registry` is an `Option Registry`
  threaded through every function that touches it.
* `std::lock_guard lk{arch_mtx}` has no effect on a sequential run and is left
  out of the sequential model.
* `anycubic_sla_format` lives in `AnycubicSLA.hpp`, which is not part of the
  sources at hand: the constructor of `Registry` takes it as a parameter `ac`,
  and so does every function that may run the constructor.
-/

namespace Slic3r

/-! ## C strings -/

/-- The comparison loop of `strcmp` on two character sequences: the sign of the
first position where they differ, a sequence that ends first being the smaller
one. Characters are compared by code point, which orders UTF-8 encoded strings
exactly as the byte-wise comparison on `unsigned char` does. -/
def strcmpChars : List Char → List Char → Int
  | [], [] => 0
  | [], _ :: _ => -1
  | _ :: _, [] => 1
  | a :: as, b :: bs =>
    if a.toNat < b.toNat then -1
    else if b.toNat < a.toNat then 1
    else strcmpChars as bs

/-- The library function `std::strcmp`: negative, zero or positive. -/
def strcmp (a b : String) : Int := strcmpChars a.data b.data

/-! ## Archive entries -/

/-- The archive writer classes the writer factories of this file construct
(`SL1.hpp`, `SL1_SVG.hpp`, `AnycubicSLA.hpp`). -/
inductive WriterClass where
  | SL1Archive
  | SL1_SVGArchive
  | AnycubicSLAArchive
deriving DecidableEq, Repr

/-- The archive reader classes the reader factories of this file construct. -/
inductive ReaderClass where
  | SL1Reader
  | SL1_SVGReader
deriving DecidableEq, Repr

/-- The type `ArchiveWriterFactory`, a `std::function`: `none` is the empty
function, `some c` the callable `[] (const auto &cfg) { return std::make_unique<c>(cfg); }`. -/
abbrev ArchiveWriterFactory := Option WriterClass

/-- The type `ArchiveReaderFactory`, a `std::function`: `none` is the empty
function (`nullptr`), `some c` the callable returning `std::make_unique<c>(fname, quality, progr)`. -/
abbrev ArchiveReaderFactory := Option ReaderClass

/-- Modelled from the spec: the struct `ArchiveEntry` is declared in
`SLAArchiveFormatRegistry.hpp`, which is not part of the sources at hand. The
fields are the spec's Format Descriptor (identifier, display name, primary
extension, extension aliases, writer factory, reader factory) under the names
the source file uses for them (`id`, `ext`, `ext_aliases`, `wrfactoryfn`,
`rdfactoryfn`), in the order of the braced initialisers of `Registry ()`. -/
structure ArchiveEntry where
  id : String
  desc : String
  ext : String
  ext_aliases : List String
  wrfactoryfn : ArchiveWriterFactory
  rdfactoryfn : ArchiveReaderFactory
deriving DecidableEq, Repr

namespace ArchiveEntry

/-- Modelled from the spec: the one-argument constructor `ArchiveEntry{formatid}`
of the missing header, "a probe key containing only the target `id`": every
other field is empty. -/
def ofId (formatid : String) : ArchiveEntry :=
  { id := formatid, desc := "", ext := "", ext_aliases := [],
    wrfactoryfn := none, rdfactoryfn := none }

/-- Modelled from the spec: `operator<` of the missing header, the ordering of
descriptors "defined solely by `id`": the `strcmp` order of the two ids. -/
def lt (a b : ArchiveEntry) : Bool := decide (strcmp a.id b.id < 0)

end ArchiveEntry

/-! ## `get_extensions` -/

/-- The helper `reserve_vector<T>(n)`: an empty vector (with capacity `n`). -/
def reserve_vector {α : Type} (_capacity : Nat) : List α := []

/-- The member `std::vector::emplace_back`. -/
def emplace_back {α : Type} (v : List α) (x : α) : List α := v ++ [x]

/-- The function `get_extensions` (lines 112-121). -/
def get_extensions (entry : ArchiveEntry) : List String :=
  let ret : List String := reserve_vector (entry.ext_aliases.length + 1)
  let ret := emplace_back ret entry.ext
  let ret := entry.ext_aliases.foldl (fun ret ext_alias => emplace_back ret ext_alias) ret
  ret

/-! ## `std::set<ArchiveEntry>` -/

namespace StdSet

/-- The member `std::set::lower_bound`: the position of the first element that
is not less than the key, given as the elements from that position on (`[]` is
`end()`). -/
def lower_bound : List ArchiveEntry → ArchiveEntry → List ArchiveEntry
  | [], _ => []
  | x :: xs, k => if x.lt k then lower_bound xs k else x :: xs

/-- The member `std::set::find`: the element at the lower bound of the key
unless the key is less than it; `none` is the iterator `end()`. -/
def find (s : List ArchiveEntry) (k : ArchiveEntry) : Option ArchiveEntry :=
  match lower_bound s k with
  | [] => none
  | x :: _ => if k.lt x then none else some x

/-- Insertion of one value with unique keys (`std::set::insert`): the value goes
before the first element greater than it, and is dropped when an element
equivalent to it (neither less than the other) is already there. -/
def insert : List ArchiveEntry → ArchiveEntry → List ArchiveEntry
  | [], e => [e]
  | x :: xs, e =>
    if e.lt x then e :: x :: xs
    else if x.lt e then x :: insert xs e
    else x :: xs

/-- Assignment of a braced initialiser list to a set (`entries = { ... }`): the
values are inserted one after the other, in the order they are written. -/
def assign (il : List ArchiveEntry) : List ArchiveEntry := il.foldl insert []

/-- The class invariant of `std::set`: iteration order is strictly ascending
by `operator<`. -/
def Ascending (s : List ArchiveEntry) : Prop := s.Pairwise (fun a b => a.lt b = true)

instance (s : List ArchiveEntry) : Decidable (Ascending s) := by
  unfold Ascending; infer_instance

end StdSet

/-! ## The registry -/

/-- The localisation marker `L(s)`, which leaves the string as it is. -/
def L (s : String) : String := s

/-- The class `Registry` (lines 15-101): its one data member. -/
structure Registry where
  entries : List ArchiveEntry
deriving DecidableEq, Repr

/-- The braced initialiser list of the constructor (lines 23-84), in the order
written. `ac` is `anycubic_sla_format`. -/
def Registry.initializer (ac : String → String → ArchiveEntry) : List ArchiveEntry :=
  [ { id := "SL1"
      desc := L "SL1 archive format"
      ext := "sl1"
      ext_aliases := ["sl1s", "zip"]
      wrfactoryfn := some WriterClass.SL1Archive
      rdfactoryfn := some ReaderClass.SL1Reader },
    { id := "SL1SVG"
      desc := L "SL1SVG archive files"
      ext := "sl1_svg"
      ext_aliases := []
      wrfactoryfn := some WriterClass.SL1_SVGArchive
      rdfactoryfn := some ReaderClass.SL1_SVGReader },
    { id := "SL2"
      desc := ""
      ext := "sl1_svg"
      ext_aliases := []
      wrfactoryfn := some WriterClass.SL1_SVGArchive
      rdfactoryfn := none },
    ac "pwmo" "Photon Mono",
    ac "pwmx" "Photon Mono X",
    ac "pwms" "Photon Mono SE" ]

/-- The constructor `Registry ()` (lines 21-85). -/
def Registry.new (ac : String → String → ArchiveEntry) : Registry :=
  { entries := StdSet.assign (Registry.initializer ac) }

/-- The function `Registry::get_instance` (lines 87-93) on the static pointer
`registry`: the instance referred to and the pointer afterwards. -/
def Registry.get_instance (ac : String → String → ArchiveEntry)
    (registry : Option Registry) : Registry × Option Registry :=
  match registry with
  | none =>
    let r := Registry.new ac
    (r, some r)
  | some r => (r, some r)

/-- The function `Registry::get` (lines 95-98). -/
def Registry.get (ac : String → String → ArchiveEntry)
    (registry : Option Registry) : List ArchiveEntry × Option Registry :=
  let (inst, registry) := Registry.get_instance ac registry
  (inst.entries, registry)

/-- The function `registered_sla_archives` (lines 105-110): the copy returned
and the static pointer afterwards. -/
def registered_sla_archives (ac : String → String → ArchiveEntry)
    (registry : Option Registry) : List ArchiveEntry × Option Registry :=
  Registry.get ac registry

/-- The function `get_writer_factory` (lines 123-133): the factory returned and
the static pointer afterwards. -/
def get_writer_factory (ac : String → String → ArchiveEntry) (formatid : String)
    (registry : Option Registry) : ArchiveWriterFactory × Option Registry :=
  let ret : ArchiveWriterFactory := none
  let (s, registry) := Registry.get ac registry
  let entry := StdSet.find s (ArchiveEntry.ofId formatid)
  let (_, registry) := Registry.get ac registry
  match entry with
  | some e => (e.wrfactoryfn, registry)
  | none => (ret, registry)

/-- The function `get_reader_factory` (lines 135-145): the factory returned and
the static pointer afterwards. -/
def get_reader_factory (ac : String → String → ArchiveEntry) (formatid : String)
    (registry : Option Registry) : ArchiveReaderFactory × Option Registry :=
  let ret : ArchiveReaderFactory := none
  let (s, registry) := Registry.get ac registry
  let entry := StdSet.find s (ArchiveEntry.ofId formatid)
  let (_, registry) := Registry.get ac registry
  match entry with
  | some e => (e.rdfactoryfn, registry)
  | none => (ret, registry)

/-- Modelled from the spec: `anycubic_sla_format` is declared in
`AnycubicSLA.hpp`, which is not part of the sources at hand. A descriptor needs
an identifier and a primary extension, for both of which the call supplies the
one format string; the second argument is the display name; a writer factory
is "present for every registered format"; no reader factory is supplied. -/
def anycubic_sla_format (fileformat desc : String) : ArchiveEntry :=
  { id := fileformat, desc := desc, ext := fileformat, ext_aliases := [],
    wrfactoryfn := some WriterClass.AnycubicSLAArchive, rdfactoryfn := none }

/-! ## Sequences of queries -/

/-- The three public functions that read the registry, with their arguments. -/
inductive Query where
  | registered_sla_archives
  | get_writer_factory (formatid : String)
  | get_reader_factory (formatid : String)
deriving DecidableEq, Repr

/-- The static pointer `registry` after one query. -/
def Query.step (ac : String → String → ArchiveEntry) (registry : Option Registry) :
    Query → Option Registry
  | Query.registered_sla_archives => (Slic3r.registered_sla_archives ac registry).2
  | Query.get_writer_factory formatid => (Slic3r.get_writer_factory ac formatid registry).2
  | Query.get_reader_factory formatid => (Slic3r.get_reader_factory ac formatid registry).2

/-- The static pointer `registry` after a sequence of queries, first to last. -/
def Query.run (ac : String → String → ArchiveEntry) (registry : Option Registry)
    (qs : List Query) : Option Registry :=
  qs.foldl (Query.step ac) registry

/-- The well-formed values of the static pointer: null, or an instance whose
set satisfies the invariant of `std::set`. -/
def WellFormed : Option Registry → Prop
  | none => True
  | some r => StdSet.Ascending r.entries

instance (registry : Option Registry) : Decidable (WellFormed registry) := by
  cases registry <;> unfold WellFormed <;> infer_instance

/-- The number of times a call of `Registry::get_instance` runs the constructor
`Registry ()`: once when the static pointer is null (line 89), else not at all. -/
def Registry.get_instance_constructions (registry : Option Registry) : Nat :=
  if registry.isNone then 1 else 0

/-- The number of times one query runs the constructor: `registered_sla_archives`
calls `Registry::get` once, the two factory lookups call it twice (for `find`
and for `end`). -/
def Query.constructions (ac : String → String → ArchiveEntry) (registry : Option Registry) :
    Query → Nat
  | Query.registered_sla_archives => Registry.get_instance_constructions registry
  | Query.get_writer_factory _ =>
    Registry.get_instance_constructions registry
      + Registry.get_instance_constructions (Registry.get ac registry).2
  | Query.get_reader_factory _ =>
    Registry.get_instance_constructions registry
      + Registry.get_instance_constructions (Registry.get ac registry).2

/-- The number of times a sequence of queries runs the constructor. -/
def Query.runConstructions (ac : String → String → ArchiveEntry) :
    Option Registry → List Query → Nat
  | _, [] => 0
  | registry, q :: qs =>
    Query.constructions ac registry q + Query.runConstructions ac (Query.step ac registry q) qs

/-! ## The order of `strcmp` -/

theorem strcmpChars_self (a : List Char) : strcmpChars a a = 0 := by
  induction a with
  | nil => rfl
  | cons x xs ih => simp [strcmpChars, ih]

theorem strcmpChars_swap (a b : List Char) : strcmpChars b a = - strcmpChars a b := by
  induction a generalizing b with
  | nil => cases b <;> simp [strcmpChars]
  | cons x xs ih =>
    cases b with
    | nil => simp [strcmpChars]
    | cons y ys =>
      simp only [strcmpChars]
      by_cases h1 : x.toNat < y.toNat
      · have h2 : ¬ y.toNat < x.toNat := by omega
        simp [h1, h2]
      · by_cases h2 : y.toNat < x.toNat
        · simp [h1, h2]
        · simp [h1, h2, ih]

theorem strcmpChars_eq_zero (a b : List Char) (h : strcmpChars a b = 0) : a = b := by
  induction a generalizing b with
  | nil => cases b with
    | nil => rfl
    | cons y ys => simp [strcmpChars] at h
  | cons x xs ih =>
    cases b with
    | nil => simp [strcmpChars] at h
    | cons y ys =>
      simp only [strcmpChars] at h
      by_cases h1 : x.toNat < y.toNat
      · simp [h1] at h
      · by_cases h2 : y.toNat < x.toNat
        · simp [h1, h2] at h
        · simp only [h1, h2, if_false] at h
          have hxy : x = y := by
            apply Char.ext
            apply UInt32.ext
            show x.toNat = y.toNat
            omega
          rw [hxy, ih ys h]

theorem strcmpChars_trans (a b c : List Char) (h1 : strcmpChars a b < 0)
    (h2 : strcmpChars b c < 0) : strcmpChars a c < 0 := by
  induction a generalizing b c with
  | nil =>
    cases b with
    | nil => simp [strcmpChars] at h1
    | cons y ys =>
      cases c with
      | nil => simp [strcmpChars] at h2
      | cons z zs => simp [strcmpChars]
  | cons x xs ih =>
    cases b with
    | nil => simp [strcmpChars] at h1
    | cons y ys =>
      cases c with
      | nil => simp [strcmpChars] at h2
      | cons z zs =>
        simp only [strcmpChars] at h1 h2 ⊢
        by_cases hxy : x.toNat < y.toNat
        · by_cases hyz : y.toNat < z.toNat
          · have : x.toNat < z.toNat := by omega
            simp [this]
          · by_cases hzy : z.toNat < y.toNat
            · simp [hyz, hzy] at h2
            · have : x.toNat < z.toNat := by omega
              simp [this]
        · by_cases hyx : y.toNat < x.toNat
          · simp [hxy, hyx] at h1
          · simp only [hxy, hyx, if_false] at h1
            by_cases hyz : y.toNat < z.toNat
            · have : x.toNat < z.toNat := by omega
              simp [this]
            · by_cases hzy : z.toNat < y.toNat
              · simp [hyz, hzy] at h2
              · simp only [hyz, hzy, if_false] at h2
                have e1 : ¬ x.toNat < z.toNat := by omega
                have e2 : ¬ z.toNat < x.toNat := by omega
                simp only [e1, e2, if_false]
                exact ih ys zs h1 h2

namespace ArchiveEntry

theorem lt_iff (a b : ArchiveEntry) : a.lt b = true ↔ strcmp a.id b.id < 0 := by
  simp [lt]

theorem lt_irrefl (a : ArchiveEntry) : a.lt a = false := by
  simp [lt, strcmp, strcmpChars_self]

theorem lt_trans {a b c : ArchiveEntry} (h1 : a.lt b = true) (h2 : b.lt c = true) :
    a.lt c = true := by
  rw [lt_iff] at *
  exact strcmpChars_trans _ _ _ h1 h2

theorem lt_asymm {a b : ArchiveEntry} (h : a.lt b = true) : b.lt a = false := by
  cases hb : b.lt a with
  | false => rfl
  | true => have := lt_trans h hb; rw [lt_irrefl] at this; exact this.symm

theorem id_eq_of_not_lt {a b : ArchiveEntry} (h1 : a.lt b = false) (h2 : b.lt a = false) :
    a.id = b.id := by
  have h1' : ¬ strcmp a.id b.id < 0 := by
    intro h; rw [← lt_iff] at h; rw [h] at h1; exact Bool.noConfusion h1
  have h2' : ¬ strcmp b.id a.id < 0 := by
    intro h; rw [← lt_iff] at h; rw [h] at h2; exact Bool.noConfusion h2
  unfold strcmp at h1' h2'
  rw [strcmpChars_swap] at h2'
  apply String.ext
  apply strcmpChars_eq_zero
  omega

theorem lt_of_id_eq_left {a a' : ArchiveEntry} (h : a.id = a'.id) (b : ArchiveEntry) :
    a.lt b = a'.lt b := by
  simp [lt, h]

theorem lt_of_id_eq_right {b b' : ArchiveEntry} (h : b.id = b'.id) (a : ArchiveEntry) :
    a.lt b = a.lt b' := by
  simp [lt, h]

theorem id_ne_of_lt {a b : ArchiveEntry} (h : a.lt b = true) : a.id ≠ b.id := by
  intro e
  rw [lt_of_id_eq_left e, lt_irrefl] at h
  exact Bool.noConfusion h

end ArchiveEntry

/-! ## Laws of the set operations -/

namespace StdSet

theorem ascending_cons {x : ArchiveEntry} {xs : List ArchiveEntry} :
    Ascending (x :: xs) ↔ (∀ y ∈ xs, x.lt y = true) ∧ Ascending xs := by
  unfold Ascending
  exact List.pairwise_cons

theorem ascending_nil : Ascending [] := List.Pairwise.nil

theorem mem_insert_imp {s : List ArchiveEntry} {e x : ArchiveEntry}
    (h : x ∈ insert s e) : x = e ∨ x ∈ s := by
  induction s with
  | nil => simp [insert] at h; exact Or.inl h
  | cons y ys ih =>
    simp only [insert] at h
    split at h
    · rcases List.mem_cons.1 h with h | h
      · exact Or.inl h
      · exact Or.inr h
    · split at h
      · rcases List.mem_cons.1 h with h | h
        · exact Or.inr (h ▸ List.mem_cons_self _ _)
        · rcases ih h with h | h
          · exact Or.inl h
          · exact Or.inr (List.mem_cons_of_mem _ h)
      · exact Or.inr h

theorem insert_ascending {s : List ArchiveEntry} (e : ArchiveEntry) (hs : Ascending s) :
    Ascending (insert s e) := by
  induction s with
  | nil => simp [insert, Ascending]
  | cons y ys ih =>
    have hy := (ascending_cons.1 hs).1
    have hys := (ascending_cons.1 hs).2
    simp only [insert]
    split
    · rename_i h
      refine ascending_cons.2 ⟨?_, hs⟩
      intro z hz
      rcases List.mem_cons.1 hz with hz | hz
      · rw [hz]; exact h
      · exact ArchiveEntry.lt_trans h (hy z hz)
    · split
      · rename_i h
        refine ascending_cons.2 ⟨?_, ih hys⟩
        intro z hz
        rcases mem_insert_imp hz with hz | hz
        · rw [hz]; exact h
        · exact hy z hz
      · exact hs

theorem mem_insert_iff {s : List ArchiveEntry} (e x : ArchiveEntry) (hs : Ascending s) :
    x ∈ insert s e ↔ x ∈ s ∨ (x = e ∧ ∀ y ∈ s, y.id ≠ e.id) := by
  induction s with
  | nil => simp [insert]
  | cons y ys ih =>
    have hy := (ascending_cons.1 hs).1
    have hys := (ascending_cons.1 hs).2
    simp only [insert]
    split
    · rename_i h
      constructor
      · intro hx
        rcases List.mem_cons.1 hx with hx | hx
        · refine Or.inr ⟨hx, ?_⟩
          intro z hz
          rcases List.mem_cons.1 hz with hz | hz
          · rw [hz]; exact fun e' => ArchiveEntry.id_ne_of_lt h e'.symm
          · exact fun e' => ArchiveEntry.id_ne_of_lt (ArchiveEntry.lt_trans h (hy z hz)) e'.symm
        · exact Or.inl hx
      · rintro (hx | ⟨hx, _⟩)
        · exact List.mem_cons_of_mem _ hx
        · rw [hx]; exact List.mem_cons_self _ _
    · rename_i h1
      split
      · rename_i h2
        rw [List.mem_cons, ih hys, List.mem_cons]
        constructor
        · rintro (hx | hx | ⟨hx, hne⟩)
          · exact Or.inl (Or.inl hx)
          · exact Or.inl (Or.inr hx)
          · refine Or.inr ⟨hx, ?_⟩
            intro z hz
            rcases List.mem_cons.1 hz with hz | hz
            · rw [hz]; exact ArchiveEntry.id_ne_of_lt h2
            · exact hne z hz
        · rintro ((hx | hx) | ⟨hx, hne⟩)
          · exact Or.inl hx
          · exact Or.inr (Or.inl hx)
          · exact Or.inr (Or.inr ⟨hx, fun z hz => hne z (List.mem_cons_of_mem _ hz)⟩)
      · rename_i h2
        constructor
        · exact Or.inl
        · rintro (hx | ⟨_, hne⟩)
          · exact hx
          · exfalso
            apply hne y (List.mem_cons_self _ _)
            apply ArchiveEntry.id_eq_of_not_lt
            · simpa using h2
            · simpa using h1

theorem find_eq_some_iff {s : List ArchiveEntry} (k x : ArchiveEntry) (hs : Ascending s) :
    find s k = some x ↔ x ∈ s ∧ x.id = k.id := by
  induction s with
  | nil => simp [find, lower_bound]
  | cons y ys ih =>
    have hy := (ascending_cons.1 hs).1
    have hys := (ascending_cons.1 hs).2
    have ih := ih hys
    unfold find at ih ⊢
    simp only [lower_bound]
    by_cases h1 : y.lt k = true
    · simp only [h1, if_true]
      rw [ih, List.mem_cons]
      constructor
      · rintro ⟨hx, he⟩
        exact ⟨Or.inr hx, he⟩
      · rintro ⟨hx | hx, he⟩
        · exfalso
          rw [hx] at he
          exact ArchiveEntry.id_ne_of_lt h1 he
        · exact ⟨hx, he⟩
    · have h1f : y.lt k = false := by simpa using h1
      simp only [h1f, Bool.false_eq_true, if_false]
      by_cases h2 : k.lt y = true
      · simp only [h2, if_true]
        constructor
        · intro h; exact Option.noConfusion h
        · rintro ⟨hx, he⟩
          exfalso
          rcases List.mem_cons.1 hx with hx | hx
          · rw [hx] at he
            exact ArchiveEntry.id_ne_of_lt h2 he.symm
          · exact ArchiveEntry.id_ne_of_lt (ArchiveEntry.lt_trans h2 (hy x hx)) he.symm
      · have h2f : k.lt y = false := by simpa using h2
        simp only [h2f, Bool.false_eq_true, if_false]
        have hid : y.id = k.id :=
          ArchiveEntry.id_eq_of_not_lt (by simpa using h1) (by simpa using h2)
        constructor
        · intro h
          have hxy : y = x := Option.some.inj h
          rw [← hxy]
          exact ⟨List.mem_cons_self _ _, hid⟩
        · rintro ⟨hx, he⟩
          rcases List.mem_cons.1 hx with hx | hx
          · rw [hx]
          · exfalso
            exact ArchiveEntry.id_ne_of_lt (hy x hx) (hid.trans he.symm)

theorem find_eq_none_iff {s : List ArchiveEntry} (k : ArchiveEntry) (hs : Ascending s) :
    find s k = none ↔ ∀ x ∈ s, x.id ≠ k.id := by
  constructor
  · intro h x hx he
    have := (find_eq_some_iff k x hs).2 ⟨hx, he⟩
    rw [h] at this
    exact Option.noConfusion this
  · intro h
    cases hf : find s k with
    | none => rfl
    | some x =>
      have := (find_eq_some_iff k x hs).1 hf
      exact absurd this.2 (h x this.1)

end StdSet

namespace StdSet

theorem exists_mem_insert_id {s : List ArchiveEntry} (e : ArchiveEntry) (hs : Ascending s) :
    ∃ z ∈ insert s e, z.id = e.id := by
  by_cases h : ∀ y ∈ s, y.id ≠ e.id
  · exact ⟨e, (mem_insert_iff e e hs).2 (Or.inr ⟨rfl, h⟩), rfl⟩
  · simp only [not_forall] at h
    obtain ⟨y, hy, hne⟩ := h
    exact ⟨y, (mem_insert_iff e y hs).2 (Or.inl hy), not_not.1 hne⟩

theorem foldl_insert_ascending (l : List ArchiveEntry) {s : List ArchiveEntry}
    (hs : Ascending s) : Ascending (l.foldl insert s) := by
  induction l generalizing s with
  | nil => exact hs
  | cons e es ih => exact ih (insert_ascending e hs)

theorem mem_foldl_insert_iff (l : List ArchiveEntry) {s : List ArchiveEntry} (x : ArchiveEntry)
    (hs : Ascending s) :
    x ∈ l.foldl insert s ↔
      x ∈ s ∨ ((∀ y ∈ s, y.id ≠ x.id) ∧ l.find? (fun y => decide (y.id = x.id)) = some x) := by
  induction l generalizing s with
  | nil => simp
  | cons e es ih =>
    rw [List.foldl_cons, ih (insert_ascending e hs), mem_insert_iff e x hs, List.find?_cons]
    constructor
    · rintro ((hx | ⟨hx, hne⟩) | ⟨hne, hf⟩)
      · exact Or.inl hx
      · refine Or.inr ⟨by rw [hx]; exact hne, ?_⟩
        simp [hx]
      · obtain ⟨z, hz, hzid⟩ := exists_mem_insert_id e hs
        have hex : e.id ≠ x.id := hzid ▸ hne z hz
        refine Or.inr ⟨fun y hy => hne y ((mem_insert_iff e y hs).2 (Or.inl hy)), ?_⟩
        simp [hex, hf]
    · rintro (hx | ⟨hne, hf⟩)
      · exact Or.inl (Or.inl hx)
      · by_cases hex : e.id = x.id
        · simp only [hex, decide_True] at hf
          have hxe : e = x := Option.some.inj hf
          exact Or.inl (Or.inr ⟨hxe.symm, by rw [hxe]; exact hne⟩)
        · simp only [hex, decide_False] at hf
          refine Or.inr ⟨?_, hf⟩
          intro y hy
          rcases mem_insert_imp hy with hy | hy
          · rw [hy]; exact hex
          · exact hne y hy

theorem assign_ascending (l : List ArchiveEntry) : Ascending (assign l) :=
  foldl_insert_ascending l ascending_nil

theorem mem_assign_iff (l : List ArchiveEntry) (x : ArchiveEntry) :
    x ∈ assign l ↔ l.find? (fun y => decide (y.id = x.id)) = some x := by
  unfold assign
  rw [mem_foldl_insert_iff l x ascending_nil]
  simp

theorem ids_nodup_of_ascending {s : List ArchiveEntry} (hs : Ascending s) :
    (s.map (fun e => e.id)).Nodup := by
  unfold List.Nodup
  rw [List.pairwise_map]
  exact List.Pairwise.imp (fun h => ArchiveEntry.id_ne_of_lt h) hs

theorem find_assign_of_first (l : List ArchiveEntry) (x k : ArchiveEntry) (hk : k.id = x.id)
    (hx : l.find? (fun y => decide (y.id = x.id)) = some x) : find (assign l) k = some x :=
  (find_eq_some_iff k x (assign_ascending l)).2 ⟨(mem_assign_iff l x).2 hx, hk.symm⟩

theorem find_first_of_nodup {l : List ArchiveEntry} (hl : (l.map (fun e => e.id)).Nodup)
    {x : ArchiveEntry} (hx : x ∈ l) : l.find? (fun y => decide (y.id = x.id)) = some x := by
  induction l with
  | nil => simp at hx
  | cons e es ih =>
    rw [List.map_cons, List.nodup_cons] at hl
    rw [List.find?_cons]
    rcases List.mem_cons.1 hx with hx | hx
    · simp [hx]
    · have hne : e.id ≠ x.id := by
        intro h
        apply hl.1
        rw [h]
        exact List.mem_map_of_mem _ hx
      simp only [hne, decide_False]
      exact ih hl.2 hx

theorem assign_perm_of_nodup {l : List ArchiveEntry} (hl : (l.map (fun e => e.id)).Nodup) :
    (assign l).Perm l := by
  rw [List.perm_ext_iff_of_nodup (ids_nodup_of_ascending (assign_ascending l)).of_map hl.of_map]
  intro x
  rw [mem_assign_iff]
  constructor
  · intro h; exact List.mem_of_find?_eq_some h
  · intro h; exact find_first_of_nodup hl h

end StdSet

/-! ## Laws of the registry access -/

theorem Registry.get_none (ac : String → String → ArchiveEntry) :
    Registry.get ac none = ((Registry.new ac).entries, some (Registry.new ac)) := rfl

theorem Registry.get_some (ac : String → String → ArchiveEntry) (r : Registry) :
    Registry.get ac (some r) = (r.entries, some r) := rfl

theorem Registry.get_get (ac : String → String → ArchiveEntry) (registry : Option Registry) :
    Registry.get ac (Registry.get ac registry).2 = Registry.get ac registry := by
  cases registry <;> rfl

theorem Registry.new_ascending (ac : String → String → ArchiveEntry) :
    StdSet.Ascending (Registry.new ac).entries :=
  StdSet.assign_ascending _

theorem Registry.get_ascending (ac : String → String → ArchiveEntry) {registry : Option Registry}
    (h : WellFormed registry) : StdSet.Ascending (Registry.get ac registry).1 := by
  cases registry with
  | none => exact Registry.new_ascending ac
  | some r => exact h

theorem get_writer_factory_eq (ac : String → String → ArchiveEntry) (formatid : String)
    (registry : Option Registry) :
    get_writer_factory ac formatid registry =
      ((match StdSet.find (Registry.get ac registry).1 (ArchiveEntry.ofId formatid) with
        | some e => e.wrfactoryfn
        | none => none), (Registry.get ac registry).2) := by
  unfold get_writer_factory
  cases registry <;> simp only [Registry.get_none, Registry.get_some] <;> split <;> rfl

theorem get_reader_factory_eq (ac : String → String → ArchiveEntry) (formatid : String)
    (registry : Option Registry) :
    get_reader_factory ac formatid registry =
      ((match StdSet.find (Registry.get ac registry).1 (ArchiveEntry.ofId formatid) with
        | some e => e.rdfactoryfn
        | none => none), (Registry.get ac registry).2) := by
  unfold get_reader_factory
  cases registry <;> simp only [Registry.get_none, Registry.get_some] <;> split <;> rfl

theorem Query.step_eq (ac : String → String → ArchiveEntry) (registry : Option Registry)
    (q : Query) : Query.step ac registry q = (Registry.get ac registry).2 := by
  cases q
  · rfl
  · simp [Query.step, get_writer_factory_eq]
  · simp [Query.step, get_reader_factory_eq]

theorem Query.run_some (ac : String → String → ArchiveEntry) (r : Registry) (qs : List Query) :
    Query.run ac (some r) qs = some r := by
  induction qs with
  | nil => rfl
  | cons q qs ih =>
    unfold Query.run at ih ⊢
    rw [List.foldl_cons, Query.step_eq, Registry.get_some]
    exact ih

theorem Query.run_get (ac : String → String → ArchiveEntry) (registry : Option Registry)
    (qs : List Query) : Registry.get ac (Query.run ac registry qs) = Registry.get ac registry := by
  cases qs with
  | nil => rfl
  | cons q qs =>
    unfold Query.run
    rw [List.foldl_cons, Query.step_eq]
    cases registry with
    | none => rw [Registry.get_none]; exact congrArg _ (Query.run_some ac _ qs)
    | some r => rw [Registry.get_some]; exact congrArg _ (Query.run_some ac _ qs)

theorem foldl_emplace_back (acc l : List String) :
    l.foldl (fun ret ext_alias => emplace_back ret ext_alias) acc = acc ++ l := by
  induction l generalizing acc with
  | nil => simp
  | cons x xs ih => rw [List.foldl_cons, ih, emplace_back, List.append_assoc]; rfl

theorem registered_after_run (ac : String → String → ArchiveEntry) (qs : List Query) :
    (registered_sla_archives ac (Query.run ac none qs)).1
      = StdSet.assign (Registry.initializer ac) := by
  unfold registered_sla_archives
  rw [Query.run_get]
  rfl

theorem wellFormed_run (ac : String → String → ArchiveEntry) (qs : List Query) :
    WellFormed (Query.run ac none qs) := by
  cases qs with
  | nil => exact True.intro
  | cons q qs =>
    unfold Query.run
    rw [List.foldl_cons, Query.step_eq, Registry.get_none]
    have h := Query.run_some ac (Registry.new ac) qs
    unfold Query.run at h
    rw [h]
    exact Registry.new_ascending ac

theorem StdSet.exists_first_of_mem {l : List ArchiveEntry} {x : ArchiveEntry} (hx : x ∈ l) :
    ∃ x', l.find? (fun y => decide (y.id = x.id)) = some x' ∧ x'.id = x.id := by
  cases hf : l.find? (fun y => decide (y.id = x.id)) with
  | none =>
    exfalso
    have := List.find?_eq_none.1 hf x hx
    simp at this
  | some x' =>
    refine ⟨x', rfl, ?_⟩
    have := List.find?_some hf
    simpa using this

theorem StdSet.find_assign_of_mem {l : List ArchiveEntry} {x : ArchiveEntry} (hx : x ∈ l) :
    ∃ x', StdSet.find (StdSet.assign l) (ArchiveEntry.ofId x.id) = some x' ∧ x'.id = x.id ∧
      l.find? (fun y => decide (y.id = x.id)) = some x' := by
  obtain ⟨x', hf, hid⟩ := StdSet.exists_first_of_mem hx
  refine ⟨x', ?_, hid, hf⟩
  apply StdSet.find_assign_of_first l x' (ArchiveEntry.ofId x.id) hid.symm
  rw [hid]
  exact hf

theorem Registry.initializer_ids (ac : String → String → ArchiveEntry)
    (hac : ∀ fileformat desc, (ac fileformat desc).id = fileformat) :
    (Registry.initializer ac).map (fun e => e.id)
      = ["SL1", "SL1SVG", "SL2", "pwmo", "pwmx", "pwms"] := by
  simp [Registry.initializer, hac]

theorem Registry.get_instance_constructions_get (ac : String → String → ArchiveEntry)
    (registry : Option Registry) :
    Registry.get_instance_constructions (Registry.get ac registry).2 = 0 := by
  cases registry <;> rfl

theorem Query.constructions_eq (ac : String → String → ArchiveEntry)
    (registry : Option Registry) (q : Query) :
    Query.constructions ac registry q = Registry.get_instance_constructions registry := by
  cases q <;> simp [Query.constructions, Registry.get_instance_constructions_get]

theorem Query.runConstructions_some (ac : String → String → ArchiveEntry) (r : Registry)
    (qs : List Query) : Query.runConstructions ac (some r) qs = 0 := by
  induction qs with
  | nil => rfl
  | cons q qs ih =>
    rw [Query.runConstructions, Query.constructions_eq, Query.step_eq, Registry.get_some, ih]
    rfl

/-! ## The claims -/

/-- C1: for every archive entry, whatever its primary extension and its aliases
(repeated ones included), `get_extensions` is the primary extension followed by
the aliases in declared order, nothing removed, reordered or deduplicated, so
its length is one more than the number of aliases; the entry with extension
"sl1" and aliases "sl1s", "zip" gives "sl1", "sl1s", "zip". -/
theorem get_extensions_eq :
    (∀ entry : ArchiveEntry,
      get_extensions entry = entry.ext :: entry.ext_aliases ∧
      (get_extensions entry).length = 1 + entry.ext_aliases.length) ∧
    get_extensions
      { id := "SL1", desc := "SL1 archive format", ext := "sl1", ext_aliases := ["sl1s", "zip"],
        wrfactoryfn := some WriterClass.SL1Archive, rdfactoryfn := some ReaderClass.SL1Reader }
      = ["sl1", "sl1s", "zip"] := by
  have h : ∀ entry : ArchiveEntry, get_extensions entry = entry.ext :: entry.ext_aliases := by
    intro entry
    show List.foldl (fun ret ext_alias => emplace_back ret ext_alias)
        (emplace_back (reserve_vector (entry.ext_aliases.length + 1)) entry.ext) entry.ext_aliases
      = entry.ext :: entry.ext_aliases
    rw [foldl_emplace_back]
    rfl
  refine ⟨fun entry => ⟨h entry, ?_⟩, h _⟩
  rw [h entry, List.length_cons, Nat.add_comm]

/-- C2: on every well-formed registry state and for every identifier,
`get_writer_factory` returns the writer factory of the catalog entry with that
id when there is one, and the empty factory when there is none. The match is by
id alone: the probe built from the id has no extensions and no factories, any
key with the same id finds the same element, and what is returned is the stored
entry's factory. -/
theorem get_writer_factory_by_id (ac : String → String → ArchiveEntry)
    (registry : Option Registry) (formatid : String) (hwf : WellFormed registry) :
    (∀ e ∈ (registered_sla_archives ac registry).1, e.id = formatid →
      (get_writer_factory ac formatid registry).1 = e.wrfactoryfn) ∧
    ((∀ e ∈ (registered_sla_archives ac registry).1, e.id ≠ formatid) →
      (get_writer_factory ac formatid registry).1 = none) ∧
    ((ArchiveEntry.ofId formatid).id = formatid ∧
      (ArchiveEntry.ofId formatid).ext = "" ∧
      (ArchiveEntry.ofId formatid).ext_aliases = [] ∧
      (ArchiveEntry.ofId formatid).wrfactoryfn = none ∧
      (ArchiveEntry.ofId formatid).rdfactoryfn = none) ∧
    (∀ k : ArchiveEntry, k.id = formatid →
      StdSet.find (registered_sla_archives ac registry).1 k
        = StdSet.find (registered_sla_archives ac registry).1 (ArchiveEntry.ofId formatid)) := by
  have hasc := Registry.get_ascending ac hwf
  rw [get_writer_factory_eq]
  unfold registered_sla_archives
  refine ⟨?_, ?_, ⟨rfl, rfl, rfl, rfl, rfl⟩, ?_⟩
  · intro e he hid
    have hf : StdSet.find (Registry.get ac registry).1 (ArchiveEntry.ofId formatid) = some e :=
      (StdSet.find_eq_some_iff _ e hasc).2 ⟨he, hid⟩
    simp only [hf]
  · intro hne
    have hf : StdSet.find (Registry.get ac registry).1 (ArchiveEntry.ofId formatid) = none :=
      (StdSet.find_eq_none_iff _ hasc).2 hne
    simp only [hf]
  · intro k hk
    cases hf : StdSet.find (Registry.get ac registry).1 (ArchiveEntry.ofId formatid) with
    | none =>
      rw [StdSet.find_eq_none_iff _ hasc] at hf ⊢
      intro x hx
      rw [hk]
      exact hf x hx
    | some x =>
      rw [StdSet.find_eq_some_iff _ x hasc] at hf ⊢
      exact ⟨hf.1, hf.2.trans hk.symm⟩

/-- Witness of C2: the built compiled-in catalog, asked for "SL2". -/
theorem get_writer_factory_by_id_witness :
    WellFormed (some (Registry.new anycubic_sla_format)) ∧
    (get_writer_factory anycubic_sla_format "SL2" (some (Registry.new anycubic_sla_format))).1
      = some WriterClass.SL1_SVGArchive :=
  ⟨by decide,
   (get_writer_factory_by_id anycubic_sla_format (some (Registry.new anycubic_sla_format)) "SL2"
      (by decide)).1
     { id := "SL2", desc := "", ext := "sl1_svg", ext_aliases := [],
       wrfactoryfn := some WriterClass.SL1_SVGArchive, rdfactoryfn := none }
     (by decide) rfl⟩

/-- C3: on every well-formed registry state and for every identifier,
`get_reader_factory` is present exactly when the catalog has an entry with that
id and that entry has a reader factory, and it is then that entry's reader
factory; so a registered id without a reader and an unregistered id get the same
result, the empty factory. -/
theorem get_reader_factory_present_iff (ac : String → String → ArchiveEntry)
    (registry : Option Registry) (formatid : String) (hwf : WellFormed registry) :
    ((get_reader_factory ac formatid registry).1.isSome = true ↔
      ∃ e ∈ (registered_sla_archives ac registry).1,
        e.id = formatid ∧ e.rdfactoryfn.isSome = true) ∧
    (∀ e ∈ (registered_sla_archives ac registry).1, e.id = formatid →
      (get_reader_factory ac formatid registry).1 = e.rdfactoryfn) ∧
    (∀ e ∈ (registered_sla_archives ac registry).1, e.id = formatid → e.rdfactoryfn = none →
      ∀ unknown : String, (∀ x ∈ (registered_sla_archives ac registry).1, x.id ≠ unknown) →
        (get_reader_factory ac formatid registry).1 = none ∧
        (get_reader_factory ac unknown registry).1 = none ∧
        (get_reader_factory ac formatid registry).1
          = (get_reader_factory ac unknown registry).1) := by
  have hasc := Registry.get_ascending ac hwf
  have hreg : ∀ (i : String) (e : ArchiveEntry), e ∈ (Registry.get ac registry).1 → e.id = i →
      (get_reader_factory ac i registry).1 = e.rdfactoryfn := by
    intro i e he hid
    have hf : StdSet.find (Registry.get ac registry).1 (ArchiveEntry.ofId i) = some e :=
      (StdSet.find_eq_some_iff _ e hasc).2 ⟨he, hid⟩
    rw [get_reader_factory_eq]
    simp only [hf]
  have hunk : ∀ i : String, (∀ x ∈ (Registry.get ac registry).1, x.id ≠ i) →
      (get_reader_factory ac i registry).1 = none := by
    intro i hne
    have hf : StdSet.find (Registry.get ac registry).1 (ArchiveEntry.ofId i) = none :=
      (StdSet.find_eq_none_iff _ hasc).2 hne
    rw [get_reader_factory_eq]
    simp only [hf]
  unfold registered_sla_archives
  refine ⟨⟨?_, ?_⟩, hreg formatid, ?_⟩
  · intro hsome
    by_cases hex : ∃ e ∈ (Registry.get ac registry).1, e.id = formatid
    · obtain ⟨e, he, hid⟩ := hex
      refine ⟨e, he, hid, ?_⟩
      rw [← hreg formatid e he hid]
      exact hsome
    · exfalso
      rw [hunk formatid (fun x hx hid => hex ⟨x, hx, hid⟩)] at hsome
      exact Bool.noConfusion hsome
  · rintro ⟨e, he, hid, hsome⟩
    rw [hreg formatid e he hid]
    exact hsome
  · intro e he hid hnone unknown hne
    have h1 : (get_reader_factory ac formatid registry).1 = none := by
      rw [hreg formatid e he hid, hnone]
    have h2 := hunk unknown hne
    exact ⟨h1, h2, h1.trans h2.symm⟩

/-- Witness of C3: in the built compiled-in catalog "SL1" has its reader, and
the write-only "SL2" and the unregistered "SL3" both get the empty factory. -/
theorem get_reader_factory_present_iff_witness :
    WellFormed (some (Registry.new anycubic_sla_format)) ∧
    (get_reader_factory anycubic_sla_format "SL1" (some (Registry.new anycubic_sla_format))).1
      = some ReaderClass.SL1Reader ∧
    (get_reader_factory anycubic_sla_format "SL2" (some (Registry.new anycubic_sla_format))).1
      = (get_reader_factory anycubic_sla_format "SL3" (some (Registry.new anycubic_sla_format))).1 :=
  ⟨by decide,
   (get_reader_factory_present_iff anycubic_sla_format (some (Registry.new anycubic_sla_format))
      "SL1" (by decide)).2.1
     { id := "SL1", desc := "SL1 archive format", ext := "sl1", ext_aliases := ["sl1s", "zip"],
       wrfactoryfn := some WriterClass.SL1Archive, rdfactoryfn := some ReaderClass.SL1Reader }
     (by decide) rfl,
   ((get_reader_factory_present_iff anycubic_sla_format (some (Registry.new anycubic_sla_format))
      "SL2" (by decide)).2.2
     { id := "SL2", desc := "", ext := "sl1_svg", ext_aliases := [],
       wrfactoryfn := some WriterClass.SL1_SVGArchive, rdfactoryfn := none }
     (by decide) rfl rfl "SL3" (by decide)).2.2⟩

/-- C4: on every well-formed registry state, for every identifier that is the
id of no catalog entry, `get_writer_factory` and `get_reader_factory` both
return a value, the empty factory, and leave the registry built. -/
theorem unknown_id_absent (ac : String → String → ArchiveEntry)
    (registry : Option Registry) (formatid : String) (hwf : WellFormed registry)
    (hunknown : ∀ e ∈ (registered_sla_archives ac registry).1, e.id ≠ formatid) :
    get_writer_factory ac formatid registry = (none, (registered_sla_archives ac registry).2) ∧
    get_reader_factory ac formatid registry = (none, (registered_sla_archives ac registry).2) ∧
    (registered_sla_archives ac registry).2.isSome = true := by
  have hasc := Registry.get_ascending ac hwf
  unfold registered_sla_archives at hunknown ⊢
  have hf : StdSet.find (Registry.get ac registry).1 (ArchiveEntry.ofId formatid) = none :=
    (StdSet.find_eq_none_iff _ hasc).2 hunknown
  rw [get_writer_factory_eq, get_reader_factory_eq]
  simp only [hf]
  refine ⟨trivial, trivial, ?_⟩
  cases registry <;> rfl

/-- Witness of C4: the id "__unknown__" on the registry that is not built yet. -/
theorem unknown_id_absent_witness :
    WellFormed none ∧
    (∀ e ∈ (registered_sla_archives anycubic_sla_format none).1, e.id ≠ "__unknown__") ∧
    (get_writer_factory anycubic_sla_format "__unknown__" none).1 = none ∧
    (get_reader_factory anycubic_sla_format "__unknown__" none).1 = none :=
  ⟨by decide, by decide,
   congrArg Prod.fst
     (unknown_id_absent anycubic_sla_format none "__unknown__" (by decide) (by decide)).1,
   congrArg Prod.fst
     (unknown_id_absent anycubic_sla_format none "__unknown__" (by decide) (by decide)).2.1⟩

/-- C5: whenever `anycubic_sla_format` returns entries that have a writer
factory, then in every state reached from the null pointer by any sequence of
queries, each entry `d` returned by `registered_sla_archives` has
`get_writer_factory d.id` equal to its own writer factory, and that factory is
present: no registered format lacks a writer. -/
theorem registered_have_writer (ac : String → String → ArchiveEntry)
    (hac : ∀ fileformat desc, (ac fileformat desc).wrfactoryfn.isSome = true)
    (qs : List Query) :
    ∀ d ∈ (registered_sla_archives ac (Query.run ac none qs)).1,
      (get_writer_factory ac d.id (registered_sla_archives ac (Query.run ac none qs)).2).1
        = d.wrfactoryfn ∧
      (get_writer_factory ac d.id (Query.run ac none qs)).1 = d.wrfactoryfn ∧
      d.wrfactoryfn.isSome = true := by
  intro d hd
  have hwf := wellFormed_run ac qs
  have hasc := Registry.get_ascending ac hwf
  have hd' : d ∈ (Registry.get ac (Query.run ac none qs)).1 := hd
  have hf : StdSet.find (Registry.get ac (Query.run ac none qs)).1 (ArchiveEntry.ofId d.id)
      = some d := (StdSet.find_eq_some_iff _ d hasc).2 ⟨hd', rfl⟩
  refine ⟨?_, ?_, ?_⟩
  · unfold registered_sla_archives
    rw [get_writer_factory_eq, Registry.get_get]
    simp only [hf]
  · rw [get_writer_factory_eq]
    simp only [hf]
  · rw [registered_after_run] at hd
    have hmem := List.mem_of_find?_eq_some ((StdSet.mem_assign_iff _ d).1 hd)
    simp only [Registry.initializer, List.mem_cons, List.mem_singleton, List.not_mem_nil,
      or_false] at hmem
    rcases hmem with h | h | h | h | h | h <;> rw [h] <;> first | rfl | exact hac _ _

/-- Witness of C5: the compiled-in catalog with `anycubic_sla_format` as the
spec describes it, after one enumeration, at the entry "pwmx". -/
theorem registered_have_writer_witness :
    (∀ fileformat desc, (anycubic_sla_format fileformat desc).wrfactoryfn.isSome = true) ∧
    (get_writer_factory anycubic_sla_format "pwmx"
        (Query.run anycubic_sla_format none [Query.registered_sla_archives])).1
      = some WriterClass.AnycubicSLAArchive :=
  ⟨fun _ _ => rfl,
   (registered_have_writer anycubic_sla_format (fun _ _ => rfl) [Query.registered_sla_archives]
      (anycubic_sla_format "pwmx" "Photon Mono X") (by decide)).2.1⟩

/-- C6: in every state reached from the null pointer by any sequence of
queries, and whatever `anycubic_sla_format` returns, `get_reader_factory "SL2"`
is empty while `get_writer_factory "SL2"` is present (the factory of
`SL1_SVGArchive`): "SL2" is write-only. -/
theorem sl2_write_only (ac : String → String → ArchiveEntry) (qs : List Query) :
    (get_reader_factory ac "SL2" (Query.run ac none qs)).1 = none ∧
    (get_writer_factory ac "SL2" (Query.run ac none qs)).1 = some WriterClass.SL1_SVGArchive ∧
    (get_writer_factory ac "SL2" (Query.run ac none qs)).1.isSome = true := by
  have hcat : (Registry.get ac (Query.run ac none qs)).1 = StdSet.assign (Registry.initializer ac) :=
    registered_after_run ac qs
  have hf : StdSet.find (StdSet.assign (Registry.initializer ac)) (ArchiveEntry.ofId "SL2")
      = some { id := "SL2", desc := "", ext := "sl1_svg", ext_aliases := [],
               wrfactoryfn := some WriterClass.SL1_SVGArchive, rdfactoryfn := none } :=
    StdSet.find_assign_of_first _ _ _ rfl rfl
  rw [get_reader_factory_eq, get_writer_factory_eq, hcat]
  simp only [hf]
  exact ⟨trivial, trivial, rfl⟩

/-- C7: the entries "SL1SVG" and "SL2" have the same primary extension
"sl1_svg" and the same `get_extensions` result, yet in every state reached from
the null pointer (whatever `anycubic_sla_format` returns) both are elements of
the catalog, they are two distinct entries, and each is found by its own id:
`get_writer_factory` returns each entry's own writer factory, and
`get_reader_factory` is present for "SL1SVG" and empty for "SL2". In general,
two entries of any initialiser list that have different ids are both
represented in the set built from it by distinct elements, each found by its
id, also when their extensions are equal. -/
theorem shared_extension_distinct_entries (ac : String → String → ArchiveEntry)
    (qs : List Query) :
    (get_extensions
        { id := "SL1SVG", desc := "SL1SVG archive files", ext := "sl1_svg", ext_aliases := [],
          wrfactoryfn := some WriterClass.SL1_SVGArchive,
          rdfactoryfn := some ReaderClass.SL1_SVGReader } = ["sl1_svg"] ∧
      get_extensions
        { id := "SL2", desc := "", ext := "sl1_svg", ext_aliases := [],
          wrfactoryfn := some WriterClass.SL1_SVGArchive, rdfactoryfn := none } = ["sl1_svg"]) ∧
    (StdSet.find (registered_sla_archives ac (Query.run ac none qs)).1 (ArchiveEntry.ofId "SL1SVG")
        = some { id := "SL1SVG", desc := "SL1SVG archive files", ext := "sl1_svg",
                 ext_aliases := [], wrfactoryfn := some WriterClass.SL1_SVGArchive,
                 rdfactoryfn := some ReaderClass.SL1_SVGReader } ∧
      StdSet.find (registered_sla_archives ac (Query.run ac none qs)).1 (ArchiveEntry.ofId "SL2")
        = some { id := "SL2", desc := "", ext := "sl1_svg", ext_aliases := [],
                 wrfactoryfn := some WriterClass.SL1_SVGArchive, rdfactoryfn := none }) ∧
    (({ id := "SL1SVG", desc := "SL1SVG archive files", ext := "sl1_svg", ext_aliases := [],
        wrfactoryfn := some WriterClass.SL1_SVGArchive,
        rdfactoryfn := some ReaderClass.SL1_SVGReader } : ArchiveEntry)
        ∈ (registered_sla_archives ac (Query.run ac none qs)).1 ∧
      ({ id := "SL2", desc := "", ext := "sl1_svg", ext_aliases := [],
         wrfactoryfn := some WriterClass.SL1_SVGArchive, rdfactoryfn := none } : ArchiveEntry)
        ∈ (registered_sla_archives ac (Query.run ac none qs)).1 ∧
      ({ id := "SL1SVG", desc := "SL1SVG archive files", ext := "sl1_svg", ext_aliases := [],
         wrfactoryfn := some WriterClass.SL1_SVGArchive,
         rdfactoryfn := some ReaderClass.SL1_SVGReader } : ArchiveEntry)
        ≠ { id := "SL2", desc := "", ext := "sl1_svg", ext_aliases := [],
            wrfactoryfn := some WriterClass.SL1_SVGArchive, rdfactoryfn := none }) ∧
    ((get_writer_factory ac "SL1SVG" (Query.run ac none qs)).1 = some WriterClass.SL1_SVGArchive ∧
      (get_writer_factory ac "SL2" (Query.run ac none qs)).1 = some WriterClass.SL1_SVGArchive ∧
      (get_reader_factory ac "SL1SVG" (Query.run ac none qs)).1 = some ReaderClass.SL1_SVGReader ∧
      (get_reader_factory ac "SL2" (Query.run ac none qs)).1 = none) ∧
    (∀ (il : List ArchiveEntry) (x y : ArchiveEntry), x ∈ il → y ∈ il → x.id ≠ y.id →
      x.ext = y.ext →
      ∃ x' y', StdSet.find (StdSet.assign il) (ArchiveEntry.ofId x.id) = some x' ∧
        StdSet.find (StdSet.assign il) (ArchiveEntry.ofId y.id) = some y' ∧
        x' ∈ StdSet.assign il ∧ y' ∈ StdSet.assign il ∧
        x'.id = x.id ∧ y'.id = y.id ∧ x' ≠ y') := by
  have hcat : (registered_sla_archives ac (Query.run ac none qs)).1
      = StdSet.assign (Registry.initializer ac) := registered_after_run ac qs
  have hcat' : (Registry.get ac (Query.run ac none qs)).1
      = StdSet.assign (Registry.initializer ac) := hcat
  have hf1 : StdSet.find (StdSet.assign (Registry.initializer ac)) (ArchiveEntry.ofId "SL1SVG")
      = some { id := "SL1SVG", desc := "SL1SVG archive files", ext := "sl1_svg",
               ext_aliases := [], wrfactoryfn := some WriterClass.SL1_SVGArchive,
               rdfactoryfn := some ReaderClass.SL1_SVGReader } :=
    StdSet.find_assign_of_first _ _ _ rfl rfl
  have hf2 : StdSet.find (StdSet.assign (Registry.initializer ac)) (ArchiveEntry.ofId "SL2")
      = some { id := "SL2", desc := "", ext := "sl1_svg", ext_aliases := [],
               wrfactoryfn := some WriterClass.SL1_SVGArchive, rdfactoryfn := none } :=
    StdSet.find_assign_of_first _ _ _ rfl rfl
  refine ⟨⟨by decide, by decide⟩, ?_, ?_, ?_, ?_⟩
  · rw [hcat]
    exact ⟨hf1, hf2⟩
  · rw [hcat]
    exact ⟨(StdSet.mem_assign_iff _ _).2 rfl, (StdSet.mem_assign_iff _ _).2 rfl, by decide⟩
  · simp only [get_writer_factory_eq, get_reader_factory_eq, hcat', hf1, hf2]
    exact ⟨trivial, trivial, trivial, trivial⟩
  · intro il x y hx hy hne _
    obtain ⟨x', hfx, hidx, _⟩ := StdSet.find_assign_of_mem hx
    obtain ⟨y', hfy, hidy, _⟩ := StdSet.find_assign_of_mem hy
    have hasc := StdSet.assign_ascending il
    refine ⟨x', y', hfx, hfy, ((StdSet.find_eq_some_iff _ x' hasc).1 hfx).1,
      ((StdSet.find_eq_some_iff _ y' hasc).1 hfy).1, hidx, hidy, ?_⟩
    intro h
    apply hne
    rw [← hidx, ← hidy, h]

/-- Witness of C7: two entries with ids "a" and "b" and the one extension "x",
written in descending order of id, are both found in the set built from them. -/
theorem shared_extension_distinct_entries_witness :
    ∃ x' y' : ArchiveEntry,
      StdSet.find
          (StdSet.assign
            [{ id := "b", desc := "", ext := "x", ext_aliases := [], wrfactoryfn := none,
               rdfactoryfn := none },
             { id := "a", desc := "", ext := "x", ext_aliases := [], wrfactoryfn := none,
               rdfactoryfn := none }])
          (ArchiveEntry.ofId "b") = some x' ∧
      StdSet.find
          (StdSet.assign
            [{ id := "b", desc := "", ext := "x", ext_aliases := [], wrfactoryfn := none,
               rdfactoryfn := none },
             { id := "a", desc := "", ext := "x", ext_aliases := [], wrfactoryfn := none,
               rdfactoryfn := none }])
          (ArchiveEntry.ofId "a") = some y' ∧
      x' ≠ y' := by
  obtain ⟨x', y', h1, h2, _, _, _, _, h3⟩ :=
    (shared_extension_distinct_entries anycubic_sla_format []).2.2.2.2
      [{ id := "b", desc := "", ext := "x", ext_aliases := [], wrfactoryfn := none,
         rdfactoryfn := none },
       { id := "a", desc := "", ext := "x", ext_aliases := [], wrfactoryfn := none,
         rdfactoryfn := none }]
      { id := "b", desc := "", ext := "x", ext_aliases := [], wrfactoryfn := none,
        rdfactoryfn := none }
      { id := "a", desc := "", ext := "x", ext_aliases := [], wrfactoryfn := none,
        rdfactoryfn := none }
      (by decide) (by decide) (by decide) rfl
  exact ⟨x', y', h1, h2, h3⟩

/-- C8: the set built from any initialiser list is strictly ascending, so its
ids are pairwise distinct; its elements are exactly the entries that are the
first in list order with their id (a later entry with the same id is dropped,
whatever its other fields); and every id of the list is represented, by that
first entry. When `anycubic_sla_format` gives each entry the id it is called
with, no id repeats in the compiled-in list and no entry is dropped: the set
is a permutation of the list and has six elements. -/
theorem assign_first_wins :
    (∀ il : List ArchiveEntry,
      StdSet.Ascending (StdSet.assign il) ∧
      ((StdSet.assign il).map (fun e => e.id)).Nodup ∧
      (∀ x, x ∈ StdSet.assign il ↔ il.find? (fun y => decide (y.id = x.id)) = some x) ∧
      (∀ e ∈ il, ∃ x ∈ StdSet.assign il,
        x.id = e.id ∧ il.find? (fun y => decide (y.id = e.id)) = some x)) ∧
    (∀ ac : String → String → ArchiveEntry,
      (∀ fileformat desc, (ac fileformat desc).id = fileformat) →
      ((Registry.initializer ac).map (fun e => e.id)).Nodup ∧
      (Registry.new ac).entries.Perm (Registry.initializer ac) ∧
      (Registry.new ac).entries.length = 6 ∧
      (∀ e ∈ Registry.initializer ac, e ∈ (Registry.new ac).entries)) := by
  constructor
  · intro il
    have hasc := StdSet.assign_ascending il
    refine ⟨hasc, StdSet.ids_nodup_of_ascending hasc, StdSet.mem_assign_iff il, ?_⟩
    intro e he
    obtain ⟨x, hfx, hid, hfirst⟩ := StdSet.find_assign_of_mem he
    exact ⟨x, ((StdSet.find_eq_some_iff _ x hasc).1 hfx).1, hid, hfirst⟩
  · intro ac hac
    have hnd : ((Registry.initializer ac).map (fun e => e.id)).Nodup := by
      rw [Registry.initializer_ids ac hac]
      decide
    have hperm : (Registry.new ac).entries.Perm (Registry.initializer ac) :=
      StdSet.assign_perm_of_nodup hnd
    refine ⟨hnd, hperm, ?_, ?_⟩
    · rw [hperm.length_eq]
      rfl
    · intro e he
      exact hperm.mem_iff.2 he

/-- Witness of C8: with `anycubic_sla_format` as the spec describes it the
compiled-in set has six elements. -/
theorem assign_first_wins_witness :
    (∀ fileformat desc, (anycubic_sla_format fileformat desc).id = fileformat) ∧
    (Registry.new anycubic_sla_format).entries.length = 6 :=
  ⟨fun _ _ => rfl, (assign_first_wins.2 anycubic_sla_format (fun _ _ => rfl)).2.2.1⟩

/-- C9: from any value of the static pointer (null or built) two calls of
`registered_sla_archives` in sequence return equal sets, and so do two calls
with any queries run before the first and between the two: the result is the
one a call in the starting state gives. -/
theorem registered_sla_archives_idempotent (ac : String → String → ArchiveEntry)
    (registry : Option Registry) (before between : List Query) :
    (registered_sla_archives ac (registered_sla_archives ac registry).2).1
      = (registered_sla_archives ac registry).1 ∧
    (registered_sla_archives ac
        (Query.run ac (registered_sla_archives ac (Query.run ac registry before)).2 between)).1
      = (registered_sla_archives ac (Query.run ac registry before)).1 ∧
    (registered_sla_archives ac (Query.run ac registry before)).1
      = (registered_sla_archives ac registry).1 := by
  unfold registered_sla_archives
  refine ⟨?_, ?_, ?_⟩
  · rw [Registry.get_get]
  · rw [Query.run_get, Registry.get_get]
  · rw [Query.run_get]

/-- C10: with the global registry as an optional catalog, every query run on
the null pointer leaves it built with the compiled-in catalog, and run on a
built pointer leaves it as it is; the catalog read after a sequence of queries
is the one read after one query more; and along any sequence of queries the
constructor runs at most once, never from a built pointer, and from the null
pointer exactly once, in the first query. -/
theorem queries_construct_once (ac : String → String → ArchiveEntry) :
    (∀ q, Query.step ac none q = some (Registry.new ac)) ∧
    (∀ r q, Query.step ac (some r) q = some r) ∧
    (∀ r qs, Query.run ac (some r) qs = some r) ∧
    (∀ q qs, Query.run ac none (q :: qs) = some (Registry.new ac)) ∧
    (∀ registry qs q,
      (registered_sla_archives ac (Query.run ac registry (qs ++ [q]))).1
        = (registered_sla_archives ac (Query.run ac registry qs)).1) ∧
    (∀ registry qs, Query.runConstructions ac registry qs ≤ 1) ∧
    (∀ r qs, Query.runConstructions ac (some r) qs = 0) ∧
    (∀ q qs, Query.constructions ac none q = 1 ∧
      Query.runConstructions ac (Query.step ac none q) qs = 0 ∧
      Query.runConstructions ac none (q :: qs) = 1) := by
  have hstep_none : ∀ q, Query.step ac none q = some (Registry.new ac) := by
    intro q; rw [Query.step_eq]; rfl
  have hcount : ∀ q qs, Query.constructions ac none q = 1 ∧
      Query.runConstructions ac (Query.step ac none q) qs = 0 ∧
      Query.runConstructions ac none (q :: qs) = 1 := by
    intro q qs
    have h1 : Query.constructions ac none q = 1 := by rw [Query.constructions_eq]; rfl
    have h2 : Query.runConstructions ac (Query.step ac none q) qs = 0 := by
      rw [hstep_none]; exact Query.runConstructions_some ac _ qs
    refine ⟨h1, h2, ?_⟩
    rw [Query.runConstructions, h1, h2]
  refine ⟨hstep_none, ?_, Query.run_some ac, ?_, ?_, ?_, Query.runConstructions_some ac, hcount⟩
  · intro r q; rw [Query.step_eq]; rfl
  · intro q qs
    unfold Query.run
    rw [List.foldl_cons, hstep_none]
    exact Query.run_some ac _ qs
  · intro registry qs q
    unfold registered_sla_archives
    rw [Query.run_get, Query.run_get]
  · intro registry qs
    cases registry with
    | some r => rw [Query.runConstructions_some]; exact Nat.zero_le _
    | none =>
      cases qs with
      | nil => exact Nat.zero_le _
      | cons q qs => exact Nat.le_of_eq (hcount q qs).2.2

/-! ## The order of enumeration -/

theorem strcmpChars_lt_iff_lex (a b : List Char) :
    strcmpChars a b < 0 ↔
      List.Lex (fun m n : Nat => m < n) (a.map Char.toNat) (b.map Char.toNat) := by
  induction a generalizing b with
  | nil =>
    cases b with
    | nil =>
      constructor
      · intro h; simp [strcmpChars] at h
      · intro h; cases h
    | cons y ys =>
      constructor
      · intro _; exact List.Lex.nil
      · intro _; simp [strcmpChars]
  | cons x xs ih =>
    cases b with
    | nil =>
      constructor
      · intro h; simp [strcmpChars] at h
      · intro h; cases h
    | cons y ys =>
      simp only [strcmpChars, List.map_cons]
      by_cases h1 : x.toNat < y.toNat
      · simp only [h1, if_true]
        constructor
        · intro _; exact List.Lex.rel h1
        · intro _; decide
      · by_cases h2 : y.toNat < x.toNat
        · simp only [h1, h2, if_true, if_false]
          constructor
          · intro h; exact absurd h (by decide)
          · intro h
            generalize x.toNat = m at h h1 h2
            generalize y.toNat = n at h h1 h2
            cases h with
            | cons h => omega
            | rel h => omega
        · simp only [h1, h2, if_false]
          have hxy : x.toNat = y.toNat := by omega
          rw [ih ys, hxy]
          constructor
          · intro h; exact List.Lex.cons h
          · intro h
            generalize y.toNat = n at h
            cases h with
            | cons h => exact h
            | rel h => omega

theorem utf8EncodeChar_ascii (c : Char) (h : c.toNat < 128) :
    (String.utf8EncodeChar c).map UInt8.toNat = [c.toNat] := by
  have h1 : c.val ≤ 127 := by
    show c.val.toNat ≤ 127
    have : c.toNat = c.val.toNat := rfl
    omega
  have h2 : String.utf8EncodeChar c = [c.val.toUInt8] := by
    simp [String.utf8EncodeChar, h1]
  rw [h2]
  show [c.val.toNat % 256] = [c.toNat]
  have : c.toNat = c.val.toNat := rfl
  rw [this, Nat.mod_eq_of_lt (by omega)]

theorem utf8_bytes_ascii (cs : List Char) (h : ∀ c ∈ cs, c.toNat < 128) :
    (cs.flatMap String.utf8EncodeChar).map UInt8.toNat = cs.map Char.toNat := by
  induction cs with
  | nil => rfl
  | cons c cs ih =>
    rw [List.flatMap_cons, List.map_append, utf8EncodeChar_ascii c (h c (List.mem_cons_self _ _)),
      ih (fun d hd => h d (List.mem_cons_of_mem _ hd))]
    rfl

theorem StdSet.ascending_iff_strcmp (s : List ArchiveEntry) :
    StdSet.Ascending s ↔ s.Pairwise (fun a b => strcmp a.id b.id < 0) := by
  unfold StdSet.Ascending
  constructor
  · exact List.Pairwise.imp (fun h => (ArchiveEntry.lt_iff _ _).1 h)
  · exact List.Pairwise.imp (fun h => (ArchiveEntry.lt_iff _ _).2 h)

theorem StdSet.ascending_eq_of_perm {s t : List ArchiveEntry} (hp : s.Perm t)
    (hs : StdSet.Ascending s) (ht : StdSet.Ascending t) : s = t := by
  haveI : IsAntisymm ArchiveEntry (fun a b => a.lt b = true) :=
    ⟨fun a b h1 h2 => by rw [ArchiveEntry.lt_asymm h1] at h2; exact Bool.noConfusion h2⟩
  exact List.eq_of_perm_of_sorted hp hs ht

theorem StdSet.assign_eq_of_perm {l₁ l₂ : List ArchiveEntry} (hp : l₁.Perm l₂)
    (hnd : (l₁.map (fun e => e.id)).Nodup) : StdSet.assign l₁ = StdSet.assign l₂ := by
  have hnd₂ : (l₂.map (fun e => e.id)).Nodup := (hp.map _).nodup_iff.1 hnd
  apply StdSet.ascending_eq_of_perm _ (StdSet.assign_ascending l₁) (StdSet.assign_ascending l₂)
  exact (StdSet.assign_perm_of_nodup hnd).trans (hp.trans (StdSet.assign_perm_of_nodup hnd₂).symm)

theorem Registry.new_entries_eq (ac : String → String → ArchiveEntry)
    (hac : ∀ fileformat desc, (ac fileformat desc).id = fileformat) :
    (Registry.new ac).entries =
      [ { id := "SL1", desc := "SL1 archive format", ext := "sl1", ext_aliases := ["sl1s", "zip"],
          wrfactoryfn := some WriterClass.SL1Archive, rdfactoryfn := some ReaderClass.SL1Reader },
        { id := "SL1SVG", desc := "SL1SVG archive files", ext := "sl1_svg", ext_aliases := [],
          wrfactoryfn := some WriterClass.SL1_SVGArchive,
          rdfactoryfn := some ReaderClass.SL1_SVGReader },
        { id := "SL2", desc := "", ext := "sl1_svg", ext_aliases := [],
          wrfactoryfn := some WriterClass.SL1_SVGArchive, rdfactoryfn := none },
        ac "pwmo" "Photon Mono",
        ac "pwms" "Photon Mono SE",
        ac "pwmx" "Photon Mono X" ] := by
  have hnd : ((Registry.initializer ac).map (fun e => e.id)).Nodup := by
    rw [Registry.initializer_ids ac hac]
    decide
  apply StdSet.ascending_eq_of_perm _ (Registry.new_ascending ac)
  · rw [StdSet.ascending_iff_strcmp]
    simp only [List.pairwise_cons, List.mem_cons, List.mem_singleton, forall_eq_or_imp, forall_eq,
      hac, List.not_mem_nil, false_imp_iff, implies_true, List.Pairwise.nil, and_true]
    decide
  · refine (StdSet.assign_perm_of_nodup hnd).trans ?_
    unfold Registry.initializer
    exact List.Perm.cons _ (List.Perm.cons _ (List.Perm.cons _ (List.Perm.cons _
      (List.Perm.swap _ _ _))))

theorem Registry.get_after_run (ac : String → String → ArchiveEntry) (qs : List Query) :
    (Registry.get ac (Query.run ac none qs)).1 = (Registry.new ac).entries :=
  registered_after_run ac qs

theorem Registry.entry_ids (ac : String → String → ArchiveEntry)
    (hac : ∀ fileformat desc, (ac fileformat desc).id = fileformat) :
    ∀ e ∈ (Registry.new ac).entries, e.id ∈ ["SL1", "SL1SVG", "SL2", "pwmo", "pwmx", "pwms"] := by
  intro e he
  have hmem : e ∈ Registry.initializer ac :=
    List.mem_of_find?_eq_some ((StdSet.mem_assign_iff _ e).1 he)
  rw [← Registry.initializer_ids ac hac]
  exact List.mem_map_of_mem _ hmem

/-- C12: the set built from any initialiser list, and so the set
`registered_sla_archives` returns in every state reached from the null pointer,
is strictly ascending in the `strcmp` order of the ids, which is the
lexicographic order of the character codes and, for ids of 7-bit characters,
of the bytes. Two initialiser lists without a repeated id that are
permutations of each other give the same set. When `anycubic_sla_format` gives
each entry the id it is called with, every permutation of the compiled-in list
gives the set that is returned, which has six entries, in the order SL1,
SL1SVG, SL2, pwmo, pwms, pwmx; the list is written in another order, with pwmx
before pwms. -/
theorem registered_sla_archives_ascending_by_id :
    (∀ a b : String,
      strcmp a b < 0 ↔
        List.Lex (fun m n : Nat => m < n) (a.data.map Char.toNat) (b.data.map Char.toNat)) ∧
    (∀ a b : String, (∀ c ∈ a.data, c.toNat < 128) → (∀ c ∈ b.data, c.toNat < 128) →
      (strcmp a b < 0 ↔
        List.Lex (fun m n : Nat => m < n) (a.toUTF8.data.toList.map UInt8.toNat)
          (b.toUTF8.data.toList.map UInt8.toNat))) ∧
    (∀ il : List ArchiveEntry,
      (StdSet.assign il).Pairwise (fun x y => strcmp x.id y.id < 0)) ∧
    (∀ (ac : String → String → ArchiveEntry) (qs : List Query),
      (registered_sla_archives ac (Query.run ac none qs)).1.Pairwise
        (fun x y => strcmp x.id y.id < 0)) ∧
    (∀ l₁ l₂ : List ArchiveEntry, l₁.Perm l₂ → (l₁.map (fun e => e.id)).Nodup →
      StdSet.assign l₁ = StdSet.assign l₂) ∧
    (∀ ac : String → String → ArchiveEntry,
      (∀ fileformat desc, (ac fileformat desc).id = fileformat) →
      ∀ qs : List Query,
        (∀ il : List ArchiveEntry, il.Perm (Registry.initializer ac) →
          StdSet.assign il = (registered_sla_archives ac (Query.run ac none qs)).1) ∧
        (registered_sla_archives ac (Query.run ac none qs)).1 =
          [ { id := "SL1", desc := "SL1 archive format", ext := "sl1",
              ext_aliases := ["sl1s", "zip"], wrfactoryfn := some WriterClass.SL1Archive,
              rdfactoryfn := some ReaderClass.SL1Reader },
            { id := "SL1SVG", desc := "SL1SVG archive files", ext := "sl1_svg",
              ext_aliases := [], wrfactoryfn := some WriterClass.SL1_SVGArchive,
              rdfactoryfn := some ReaderClass.SL1_SVGReader },
            { id := "SL2", desc := "", ext := "sl1_svg", ext_aliases := [],
              wrfactoryfn := some WriterClass.SL1_SVGArchive, rdfactoryfn := none },
            ac "pwmo" "Photon Mono",
            ac "pwms" "Photon Mono SE",
            ac "pwmx" "Photon Mono X" ] ∧
        (registered_sla_archives ac (Query.run ac none qs)).1.length = 6 ∧
        (registered_sla_archives ac (Query.run ac none qs)).1.map (fun e => e.id)
          = ["SL1", "SL1SVG", "SL2", "pwmo", "pwms", "pwmx"] ∧
        (Registry.initializer ac).map (fun e => e.id)
          = ["SL1", "SL1SVG", "SL2", "pwmo", "pwmx", "pwms"] ∧
        (registered_sla_archives ac (Query.run ac none qs)).1 ≠ Registry.initializer ac) := by
  have hlex : ∀ a b : String,
      strcmp a b < 0 ↔
        List.Lex (fun m n : Nat => m < n) (a.data.map Char.toNat) (b.data.map Char.toNat) :=
    fun a b => strcmpChars_lt_iff_lex a.data b.data
  have hasc : ∀ il : List ArchiveEntry,
      (StdSet.assign il).Pairwise (fun x y => strcmp x.id y.id < 0) :=
    fun il => (StdSet.ascending_iff_strcmp _).1 (StdSet.assign_ascending il)
  refine ⟨hlex, ?_, hasc, ?_, fun l₁ l₂ hp hnd => StdSet.assign_eq_of_perm hp hnd, ?_⟩
  · intro a b ha hb
    rw [hlex]
    have hbytes : ∀ s : String, (∀ c ∈ s.data, c.toNat < 128) →
        s.toUTF8.data.toList.map UInt8.toNat = s.data.map Char.toNat :=
      fun s hs => utf8_bytes_ascii s.data hs
    rw [hbytes a ha, hbytes b hb]
  · intro ac qs
    rw [registered_after_run]
    exact hasc _
  · intro ac hac qs
    have hcat : (registered_sla_archives ac (Query.run ac none qs)).1
        = (Registry.new ac).entries := registered_after_run ac qs
    have hids := Registry.initializer_ids ac hac
    have hnd : ((Registry.initializer ac).map (fun e => e.id)).Nodup := by
      rw [hids]
      decide
    have hexp := Registry.new_entries_eq ac hac
    have hmap : (Registry.new ac).entries.map (fun e => e.id)
        = ["SL1", "SL1SVG", "SL2", "pwmo", "pwms", "pwmx"] := by
      rw [hexp]
      simp [hac]
    rw [hcat]
    refine ⟨?_, hexp, ?_, hmap, hids, ?_⟩
    · intro il hp
      exact StdSet.assign_eq_of_perm hp ((hp.symm.map _).nodup_iff.1 hnd)
    · rw [hexp]
      rfl
    · intro h
      have h' := congrArg (List.map (fun e => e.id)) h
      rw [hmap, hids] at h'
      exact absurd h' (by decide)

/-- Witness of C12: with `anycubic_sla_format` as the spec describes it, the
compiled-in list written backwards gives the set a first call returns, whose
ids are SL1, SL1SVG, SL2, pwmo, pwms, pwmx. -/
theorem registered_sla_archives_ascending_by_id_witness :
    (∀ fileformat desc, (anycubic_sla_format fileformat desc).id = fileformat) ∧
    (Registry.initializer anycubic_sla_format).reverse.Perm
      (Registry.initializer anycubic_sla_format) ∧
    StdSet.assign (Registry.initializer anycubic_sla_format).reverse
      = (registered_sla_archives anycubic_sla_format (Query.run anycubic_sla_format none [])).1 ∧
    (registered_sla_archives anycubic_sla_format
        (Query.run anycubic_sla_format none [])).1.map (fun e => e.id)
      = ["SL1", "SL1SVG", "SL2", "pwmo", "pwms", "pwmx"] :=
  ⟨fun _ _ => rfl, List.reverse_perm _,
   (registered_sla_archives_ascending_by_id.2.2.2.2.2 anycubic_sla_format (fun _ _ => rfl) []).1
     _ (List.reverse_perm _),
   (registered_sla_archives_ascending_by_id.2.2.2.2.2 anycubic_sla_format
     (fun _ _ => rfl) []).2.2.2.1⟩

/-- C13: when `anycubic_sla_format` gives each entry the id it is called with,
then in every state reached from the null pointer a lookup is present only for
an identifier that is, as a whole string, one of the six registered ids. Both
`get_writer_factory` and `get_reader_factory` are empty for "sl1" (the primary
extension of SL1, and its id in lower case), for "zip" and "sl1_svg"
(extensions of SL1 and of SL1SVG), for "SL" and "SL1S" (proper prefixes of the
ids "SL1" and "SL1SVG") and for the empty string. -/
theorem lookup_matches_whole_id (ac : String → String → ArchiveEntry)
    (hac : ∀ fileformat desc, (ac fileformat desc).id = fileformat) (qs : List Query) :
    (∀ formatid : String,
      ((get_writer_factory ac formatid (Query.run ac none qs)).1.isSome = true ∨
        (get_reader_factory ac formatid (Query.run ac none qs)).1.isSome = true) →
      formatid ∈ ["SL1", "SL1SVG", "SL2", "pwmo", "pwmx", "pwms"]) ∧
    (∀ formatid ∈ ["sl1", "zip", "sl1_svg", "SL", "SL1S", ""],
      (get_writer_factory ac formatid (Query.run ac none qs)).1 = none ∧
      (get_reader_factory ac formatid (Query.run ac none qs)).1 = none) ∧
    (∃ e ∈ (registered_sla_archives ac (Query.run ac none qs)).1,
      e.id = "SL1" ∧ e.ext = "sl1" ∧ "zip" ∈ get_extensions e ∧
      "sl1".data.map Char.toUpper = e.id.data) ∧
    (∃ e ∈ (registered_sla_archives ac (Query.run ac none qs)).1,
      e.id = "SL1SVG" ∧ "sl1_svg" ∈ get_extensions e) ∧
    ("SL".data <+: "SL1".data ∧ "SL" ≠ "SL1" ∧ "SL1S".data <+: "SL1SVG".data ∧
      "SL1S" ≠ "SL1SVG") := by
  have hcat : (Registry.get ac (Query.run ac none qs)).1 = (Registry.new ac).entries :=
    Registry.get_after_run ac qs
  have hcat' : (registered_sla_archives ac (Query.run ac none qs)).1
      = (Registry.new ac).entries := hcat
  have hasc := Registry.new_ascending ac
  have hids := Registry.entry_ids ac hac
  have hfound : ∀ (formatid : String) (e : ArchiveEntry),
      StdSet.find (Registry.new ac).entries (ArchiveEntry.ofId formatid) = some e →
      formatid ∈ ["SL1", "SL1SVG", "SL2", "pwmo", "pwmx", "pwms"] := by
    intro formatid e hf
    have h := (StdSet.find_eq_some_iff _ e hasc).1 hf
    have hid : e.id = formatid := h.2
    rw [← hid]
    exact hids e h.1
  refine ⟨?_, ?_, ?_, ?_, ?_⟩
  · intro formatid h
    rw [get_writer_factory_eq, get_reader_factory_eq, hcat] at h
    cases hf : StdSet.find (Registry.new ac).entries (ArchiveEntry.ofId formatid) with
    | some e => exact hfound formatid e hf
    | none =>
      simp only [hf] at h
      rcases h with h | h <;> exact Bool.noConfusion h
  · intro formatid hmem
    have hnot : formatid ∉ ["SL1", "SL1SVG", "SL2", "pwmo", "pwmx", "pwms"] := by
      simp only [List.mem_cons, List.mem_singleton, List.not_mem_nil, or_false] at hmem
      rcases hmem with h | h | h | h | h | h <;> rw [h] <;> decide
    have hf : StdSet.find (Registry.new ac).entries (ArchiveEntry.ofId formatid) = none := by
      cases hf : StdSet.find (Registry.new ac).entries (ArchiveEntry.ofId formatid) with
      | none => rfl
      | some e => exact absurd (hfound formatid e hf) hnot
    rw [get_writer_factory_eq, get_reader_factory_eq, hcat]
    simp only [hf]
    exact ⟨trivial, trivial⟩
  · rw [hcat']
    exact ⟨_, (StdSet.mem_assign_iff (Registry.initializer ac)
        { id := "SL1", desc := "SL1 archive format", ext := "sl1", ext_aliases := ["sl1s", "zip"],
          wrfactoryfn := some WriterClass.SL1Archive,
          rdfactoryfn := some ReaderClass.SL1Reader }).2 rfl, rfl, rfl, by decide, by decide⟩
  · rw [hcat']
    exact ⟨_, (StdSet.mem_assign_iff (Registry.initializer ac)
        { id := "SL1SVG", desc := "SL1SVG archive files", ext := "sl1_svg", ext_aliases := [],
          wrfactoryfn := some WriterClass.SL1_SVGArchive,
          rdfactoryfn := some ReaderClass.SL1_SVGReader }).2 rfl, rfl, by decide⟩
  · exact ⟨by decide, by decide, by decide, by decide⟩

/-- Witness of C13: with `anycubic_sla_format` as the spec describes it, the
lookups for "zip" on the registry that is not built yet are both empty. -/
theorem lookup_matches_whole_id_witness :
    (∀ fileformat desc, (anycubic_sla_format fileformat desc).id = fileformat) ∧
    (get_writer_factory anycubic_sla_format "zip" (Query.run anycubic_sla_format none [])).1
      = none ∧
    (get_reader_factory anycubic_sla_format "zip" (Query.run anycubic_sla_format none [])).1
      = none :=
  ⟨fun _ _ => rfl,
   (lookup_matches_whole_id anycubic_sla_format (fun _ _ => rfl) []).2.1 "zip" (by decide)⟩

end Slic3r
